import Mathlib

/-!
Shallow embedding of the numerical core of the Mathe-Zeichner repository:
the point-sequence data model, the differentiation and integration engines
(src/utils/mathUtils.ts), the sampling routine, and the edit handlers of the
reconstruction coordinator (src/App.tsx).  Real-number arithmetic of the
source is modelled over the rationals.
-/

/-- A sample point, `interface Point { x: number; y: number }`. -/
structure Point where
  x : ℚ
  y : ℚ
deriving DecidableEq, Repr

/-- In-bounds array read `pts[i]` (all claims restrict indices to bounds). -/
def nthP (pts : List Point) (i : Nat) : Point := pts.getD i ⟨0, 0⟩

/-- The strictly-increasing-x invariant on a point sequence. -/
def StrictIncX (pts : List Point) : Prop :=
  List.Chain' (fun a b => a < b) (pts.map Point.x)

instance (pts : List Point) : Decidable (StrictIncX pts) := by
  unfold StrictIncX; infer_instance

/-- `generateFunctionPoints` from src/utils/mathUtils.ts: uniform sampling of
`func` over `[minX, maxX]` with `steps` samples. -/
def generateFunctionPoints (func : ℚ → ℚ) (minX maxX : ℚ) (steps : Nat) :
    List Point :=
  let stepSize := (maxX - minX) / ((steps : ℚ) - 1)
  (List.range steps).map (fun (i : Nat) =>
    let x := minX + (i : ℚ) * stepSize
    ⟨x, func x⟩)

/-- The slope chosen at loop index `i` inside `calculateDerivative`:
forward difference at `i = 0`, backward at `i = length - 1`, central
otherwise. -/
def derivSlope (points : List Point) (i : Nat) : ℚ :=
  if i = 0 then
    ((nthP points (i + 1)).y - (nthP points i).y) /
      ((nthP points (i + 1)).x - (nthP points i).x)
  else if i = points.length - 1 then
    ((nthP points i).y - (nthP points (i - 1)).y) /
      ((nthP points i).x - (nthP points (i - 1)).x)
  else
    ((nthP points (i + 1)).y - (nthP points (i - 1)).y) /
      ((nthP points (i + 1)).x - (nthP points (i - 1)).x)

/-- `calculateDerivative` from src/utils/mathUtils.ts. -/
def calculateDerivative (points : List Point) : List Point :=
  if points.length < 2 then []
  else
    (List.range points.length).map (fun i => ⟨(nthP points i).x, derivSlope points i⟩)

/-- The accumulation loop of `calculateIntegral` (`for i = 1 ...`): `prev` is
`points[i-1]`, `acc` the running `accumulatedArea`. -/
def integralLoop (prev : Point) (acc : ℚ) : List Point → List Point
  | [] => []
  | q :: rest =>
    let acc' := acc + (q.y + prev.y) / 2 * (q.x - prev.x)
    ⟨q.x, acc'⟩ :: integralLoop q acc' rest

/-- `calculateIntegral` from src/utils/mathUtils.ts: cumulative trapezoidal
antiderivative anchored at `initialC`. -/
def calculateIntegral (points : List Point) (initialC : ℚ) : List Point :=
  match points with
  | [] => []
  | p :: rest => ⟨p.x, initialC⟩ :: integralLoop p initialC rest

/-- A JavaScript array slot after `next[index] = {...next[index], y: newY}`:
a proper point, an `{y}` object with undefined `x` (spread of `undefined`),
or a hole of a sparse array. -/
inductive JsElem where
  | point : Point → JsElem
  | yOnly : ℚ → JsElem
  | hole : JsElem
deriving DecidableEq, Repr

/-- JavaScript semantics of `arr[index] = {...arr[index], y: newY}` on a copy
of `arr`: in range it replaces the `y` of the indexed element; past the end it
extends the array with holes and an `x`-less object. -/
def jsSetY (arr : List Point) (index : Nat) (newY : ℚ) : List JsElem :=
  if index < arr.length then
    (arr.set index ⟨(nthP arr index).x, newY⟩).map JsElem.point
  else
    arr.map JsElem.point ++
      List.replicate (index - arr.length) JsElem.hole ++ [JsElem.yOnly newY]

/-- `handleFunctionDrag` from src/App.tsx: copy PRIMARY and overwrite the `y`
at `index`. -/
def handleFunctionDrag (prev : List Point) (index : Nat) (newY : ℚ) :
    List JsElem :=
  jsSetY prev index newY

/-- In-range point update `arr[index] = {...arr[index], y: newY}` (the region
in which the edit handlers are specified to be called). -/
def setPointY (arr : List Point) (index : Nat) (newY : ℚ) : List Point :=
  arr.set index ⟨(nthP arr index).x, newY⟩

/-- `functionPoints[0]?.y || 0`: the head `y`, with JavaScript falsiness
sending a missing head (and a zero head) to `0`. -/
def jsOrHeadY (pts : List Point) : ℚ :=
  match pts with
  | [] => 0
  | p :: _ => if p.y = 0 then 0 else p.y

/-- `handleDerivativeDrag` from src/App.tsx for an in-range index: overwrite
the indexed derivative `y`, then integrate using the current PRIMARY's first
`y` (with `|| 0` fallback) as the constant of integration. -/
def handleDerivativeDrag (functionPoints derivativePoints : List Point)
    (index : Nat) (newY : ℚ) : List Point :=
  calculateIntegral (setPointY derivativePoints index newY)
    (jsOrHeadY functionPoints)

/-- `handleIntegralDrag` from src/App.tsx for an in-range index: overwrite the
indexed antiderivative `y`, then differentiate. -/
def handleIntegralDrag (integralPoints : List Point) (index : Nat)
    (newY : ℚ) : List Point :=
  calculateDerivative (setPointY integralPoints index newY)

example : calculateDerivative [⟨0, 0⟩, ⟨1, 1⟩, ⟨2, 4⟩] =
    [⟨0, 1⟩, ⟨1, 2⟩, ⟨2, 3⟩] := by
  norm_num [calculateDerivative, derivSlope, nthP, List.range_succ]

example : calculateIntegral [⟨0, 1⟩, ⟨1, 1⟩] 0 = [⟨0, 0⟩, ⟨1, 1⟩] := by
  norm_num [calculateIntegral, integralLoop]

example : calculateDerivative [⟨0, 5⟩] = [] := by
  norm_num [calculateDerivative]

example : calculateIntegral [⟨2, 3⟩] 5 = [⟨2, 5⟩] := by
  norm_num [calculateIntegral, integralLoop]

example : generateFunctionPoints (fun x => x + 1) 0 2 3 =
    [⟨0, 1⟩, ⟨1, 2⟩, ⟨2, 3⟩] := by
  norm_num [generateFunctionPoints, List.range_succ]

/-! ### Helper lemmas -/

lemma nthP_rangeMap (n : Nat) (f : Nat → Point) (i : Nat) (h : i < n) :
    nthP ((List.range n).map f) i = f i := by
  have hl : i < ((List.range n).map f).length := by simpa using h
  rw [nthP, List.getD_eq_getElem _ _ hl, List.getElem_map, List.getElem_range]

lemma nthP_cons_zero (p : Point) (l : List Point) : nthP (p :: l) 0 = p := rfl

lemma nthP_cons_succ (p : Point) (l : List Point) (i : Nat) :
    nthP (p :: l) (i + 1) = nthP l i := rfl

lemma calculateDerivative_of_lt (pts : List Point) (h : pts.length < 2) :
    calculateDerivative pts = [] := by
  simp [calculateDerivative, h]

lemma calculateDerivative_length (pts : List Point) (h : 2 ≤ pts.length) :
    (calculateDerivative pts).length = pts.length := by
  rw [calculateDerivative, if_neg (by omega)]
  simp

lemma calculateDerivative_nthP (pts : List Point) (h : 2 ≤ pts.length)
    (i : Nat) (hi : i < pts.length) :
    nthP (calculateDerivative pts) i = ⟨(nthP pts i).x, derivSlope pts i⟩ := by
  rw [calculateDerivative, if_neg (by omega)]
  exact nthP_rangeMap _ _ _ hi

lemma integralLoop_length (rest : List Point) :
    ∀ (prev : Point) (acc : ℚ), (integralLoop prev acc rest).length = rest.length := by
  induction rest with
  | nil => intro prev acc; rfl
  | cons q rest ih => intro prev acc; simp [integralLoop, ih]

lemma calculateIntegral_length (pts : List Point) (C : ℚ) :
    (calculateIntegral pts C).length = pts.length := by
  cases pts with
  | nil => rfl
  | cons p rest => simp [calculateIntegral, integralLoop_length]

lemma integralLoop_nthP_x (rest : List Point) :
    ∀ (prev : Point) (acc : ℚ) (i : Nat), i < rest.length →
      (nthP (integralLoop prev acc rest) i).x = (nthP rest i).x := by
  induction rest with
  | nil => intro _ _ i hi; simp at hi
  | cons q rest ih =>
    intro prev acc i hi
    cases i with
    | zero => rfl
    | succ j =>
      rw [integralLoop]
      rw [nthP_cons_succ, nthP_cons_succ]
      exact ih q _ j (by simpa using hi)

lemma integralLoop_rec (rest : List Point) :
    ∀ (prev : Point) (acc : ℚ) (i : Nat), 1 ≤ i → i < rest.length →
      (nthP (integralLoop prev acc rest) i).y =
        (nthP (integralLoop prev acc rest) (i - 1)).y +
          ((nthP rest i).y + (nthP rest (i - 1)).y) / 2 *
            ((nthP rest i).x - (nthP rest (i - 1)).x) := by
  induction rest with
  | nil => intro _ _ i h1 hi; simp at hi
  | cons q rest ih =>
    intro prev acc i h1 hi
    obtain ⟨j, rfl⟩ : ∃ j, i = j + 1 := ⟨i - 1, by omega⟩
    cases j with
    | zero =>
      obtain ⟨r, rest', rfl⟩ : ∃ r rest', rest = r :: rest' := by
        cases rest with
        | nil => simp at hi
        | cons r rest' => exact ⟨r, rest', rfl⟩
      show (nthP (integralLoop prev acc (q :: r :: rest')) 1).y = _
      rw [integralLoop, integralLoop]
      simp [nthP_cons_zero, nthP_cons_succ]
    | succ k =>
      rw [integralLoop]
      have hk : k + 1 < rest.length := by simpa using hi
      have := ih q (acc + (q.y + prev.y) / 2 * (q.x - prev.x)) (k + 1)
        (by omega) hk
      simpa [nthP_cons_succ] using this

lemma calculateIntegral_cons (p : Point) (rest : List Point) (C : ℚ) :
    calculateIntegral (p :: rest) C = ⟨p.x, C⟩ :: integralLoop p C rest := rfl

lemma calculateIntegral_nthP_x (pts : List Point) (C : ℚ) (i : Nat)
    (hi : i < pts.length) :
    (nthP (calculateIntegral pts C) i).x = (nthP pts i).x := by
  cases pts with
  | nil => simp at hi
  | cons p rest =>
    cases i with
    | zero => rfl
    | succ j =>
      rw [calculateIntegral_cons, nthP_cons_succ, nthP_cons_succ]
      exact integralLoop_nthP_x rest p C j (by simpa using hi)

lemma nthP_map_point (f : Point → Point) (l : List Point) (i : Nat)
    (hi : i < l.length) : nthP (l.map f) i = f (nthP l i) := by
  rw [nthP, nthP, List.getD_eq_getElem _ _ (by simpa using hi),
    List.getD_eq_getElem _ _ hi, List.getElem_map]

lemma integralLoop_shift (rest : List Point) :
    ∀ (prev : Point) (a c : ℚ),
      integralLoop prev (a + c) rest =
        (integralLoop prev a rest).map (fun p => ⟨p.x, p.y + c⟩) := by
  induction rest with
  | nil => intro prev a c; rfl
  | cons q rest ih =>
    intro prev a c
    simp only [integralLoop, List.map_cons]
    have harith : a + c + (q.y + prev.y) / 2 * (q.x - prev.x) =
        a + (q.y + prev.y) / 2 * (q.x - prev.x) + c := by ring
    rw [harith, ih q (a + (q.y + prev.y) / 2 * (q.x - prev.x)) c]

lemma calculateIntegral_shift (pts : List Point) (C : ℚ) :
    calculateIntegral pts C =
      (calculateIntegral pts 0).map (fun p => ⟨p.x, p.y + C⟩) := by
  cases pts with
  | nil => rfl
  | cons p rest =>
    have hloop := integralLoop_shift rest p 0 C
    rw [zero_add] at hloop
    rw [calculateIntegral_cons, calculateIntegral_cons, List.map_cons, hloop]
    norm_num

lemma map_x_eq_of_nthP (l₁ l₂ : List Point) (hlen : l₁.length = l₂.length)
    (h : ∀ i < l₁.length, (nthP l₁ i).x = (nthP l₂ i).x) :
    l₁.map Point.x = l₂.map Point.x := by
  apply List.ext_getElem (by simpa using hlen)
  intro i h1 h2
  simp only [List.getElem_map]
  have hi : i < l₁.length := by simpa using h1
  have hx := h i hi
  rw [nthP, nthP, List.getD_eq_getElem _ _ hi,
    List.getD_eq_getElem _ _ (by omega)] at hx
  exact hx

lemma calculateDerivative_map_x (pts : List Point) (h : 2 ≤ pts.length) :
    (calculateDerivative pts).map Point.x = pts.map Point.x := by
  apply map_x_eq_of_nthP _ _ (calculateDerivative_length pts h)
  intro i hi
  rw [calculateDerivative_length pts h] at hi
  rw [calculateDerivative_nthP pts h i hi]

lemma calculateIntegral_map_x (pts : List Point) (C : ℚ) :
    (calculateIntegral pts C).map Point.x = pts.map Point.x := by
  apply map_x_eq_of_nthP _ _ (calculateIntegral_length pts C)
  intro i hi
  rw [calculateIntegral_length pts C] at hi
  exact calculateIntegral_nthP_x pts C i hi

lemma setPointY_length (arr : List Point) (i : Nat) (y : ℚ) :
    (setPointY arr i y).length = arr.length := by
  simp [setPointY]

lemma setPointY_map_x (arr : List Point) (i : Nat) (y : ℚ)
    (hi : i < arr.length) :
    (setPointY arr i y).map Point.x = arr.map Point.x := by
  rw [setPointY, List.map_set]
  apply List.ext_getElem (by simp)
  intro j h1 h2
  rw [List.getElem_set]
  by_cases hj : i = j
  · subst hj
    simp [nthP, List.getElem?_eq_getElem hi]
  · rw [if_neg hj]

lemma strictIncX_of_map_x_eq (l₁ l₂ : List Point)
    (h : l₁.map Point.x = l₂.map Point.x) (hm : StrictIncX l₂) :
    StrictIncX l₁ := by
  rw [StrictIncX, h]; exact hm

/-- In-bounds read of a JavaScript array slot (`hole` as the default). -/
def nthJ (l : List JsElem) (i : Nat) : JsElem := l.getD i JsElem.hole

lemma nthJ_map_point (l : List Point) (j : Nat) (hj : j < l.length) :
    nthJ (l.map JsElem.point) j = JsElem.point (nthP l j) := by
  rw [nthJ, nthP, List.getD_eq_getElem _ _ (by simpa using hj),
    List.getD_eq_getElem _ _ hj, List.getElem_map]

lemma nthP_set (arr : List Point) (i j : Nat) (v : Point)
    (hj : j < arr.length) :
    nthP (arr.set i v) j = if i = j then v else nthP arr j := by
  rw [nthP, List.getD_eq_getElem _ _ (by simpa using hj), List.getElem_set]
  by_cases h : i = j
  · simp [h]
  · rw [if_neg h, if_neg h, nthP, List.getD_eq_getElem _ _ hj]

lemma nthP_mem (pts : List Point) (i : Nat) (hi : i < pts.length) :
    nthP pts i ∈ pts := by
  rw [nthP, List.getD_eq_getElem _ _ hi]
  exact List.getElem_mem hi

lemma pairwise_x_lt (pts : List Point) (hmono : StrictIncX pts)
    (i j : Nat) (hi : i < pts.length) (hj : j < pts.length) (hij : i < j) :
    (nthP pts i).x < (nthP pts j).x := by
  rw [StrictIncX, List.chain'_iff_pairwise] at hmono
  have h := List.pairwise_iff_getElem.mp hmono i j
    (by simpa using hi) (by simpa using hj) hij
  simpa [List.getElem_map, nthP, List.getElem?_eq_getElem hi,
    List.getElem?_eq_getElem hj] using h

lemma linear_slope (pts : List Point) (a b : ℚ) (hmono : StrictIncX pts)
    (hlin : ∀ p ∈ pts, p.y = a * p.x + b) (i j : Nat)
    (hi : i < pts.length) (hj : j < pts.length) (hij : i < j) :
    ((nthP pts j).y - (nthP pts i).y) /
      ((nthP pts j).x - (nthP pts i).x) = a := by
  have hyi := hlin (nthP pts i) (nthP_mem pts i hi)
  have hyj := hlin (nthP pts j) (nthP_mem pts j hj)
  have hxlt := pairwise_x_lt pts hmono i j hi hj hij
  have hxne : (nthP pts j).x - (nthP pts i).x ≠ 0 :=
    sub_ne_zero.mpr (ne_of_gt hxlt)
  rw [hyi, hyj]
  field_simp
  ring

lemma derivSlope_linear (pts : List Point) (a b : ℚ)
    (hmono : StrictIncX pts) (h2 : 2 ≤ pts.length)
    (hlin : ∀ p ∈ pts, p.y = a * p.x + b) (i : Nat) (hi : i < pts.length) :
    derivSlope pts i = a := by
  by_cases h0 : i = 0
  · subst h0
    rw [derivSlope, if_pos rfl]
    exact linear_slope pts a b hmono hlin 0 1 (by omega) (by omega) (by omega)
  · by_cases hl : i = pts.length - 1
    · rw [derivSlope, if_neg h0, if_pos hl]
      exact linear_slope pts a b hmono hlin (i - 1) i (by omega) hi (by omega)
    · rw [derivSlope, if_neg h0, if_neg hl]
      exact linear_slope pts a b hmono hlin (i - 1) (i + 1)
        (by omega) (by omega) (by omega)

lemma calculateDerivative_linear (pts : List Point) (a b : ℚ)
    (hmono : StrictIncX pts) (h2 : 2 ≤ pts.length)
    (hlin : ∀ p ∈ pts, p.y = a * p.x + b) :
    calculateDerivative pts = pts.map (fun p => ⟨p.x, a⟩) := by
  apply List.ext_getElem (by simp [calculateDerivative_length pts h2])
  intro i h1 h1'
  have hi : i < pts.length := by simpa using h1'
  have hd := calculateDerivative_nthP pts h2 i hi
  rw [nthP, List.getD_eq_getElem _ _ h1] at hd
  rw [hd, List.getElem_map, derivSlope_linear pts a b hmono h2 hlin i hi,
    nthP, List.getD_eq_getElem _ _ hi]

lemma integralLoop_const (a : ℚ) (rest : List Point) :
    ∀ (prev : Point) (acc : ℚ), prev.y = a → (∀ p ∈ rest, p.y = a) →
      integralLoop prev acc rest =
        rest.map (fun q => ⟨q.x, acc + a * (q.x - prev.x)⟩) := by
  induction rest with
  | nil => intro _ _ _ _; rfl
  | cons q rest ih =>
    intro prev acc hprev hall
    have hq : q.y = a := hall q (by simp)
    simp only [integralLoop, List.map_cons]
    have hacc : acc + (q.y + prev.y) / 2 * (q.x - prev.x) =
        acc + a * (q.x - prev.x) := by
      rw [hq, hprev]; ring
    rw [hacc, ih q (acc + a * (q.x - prev.x)) hq
      (fun p hp => hall p (List.mem_cons_of_mem q hp))]
    congr 1
    apply List.map_congr_left
    intro r _
    have : acc + a * (q.x - prev.x) + a * (r.x - q.x) =
        acc + a * (r.x - prev.x) := by ring
    rw [this]

lemma linear_on_pair :
    ∀ p ∈ ([⟨1, 1⟩, ⟨2, 2⟩] : List Point), p.y = 1 * p.x + 0 := by
  intro p hp
  simp only [List.mem_cons, List.not_mem_nil, or_false] at hp
  rcases hp with rfl | rfl <;> norm_num

/-! ### Claim theorems -/

/-- C1: for every point sequence of length at least 2 with strictly increasing
x-values, `calculateDerivative` returns a sequence of the same length and the
same x-values whose first y is the forward difference, whose last y is the
backward difference and whose interior ys are central differences; for every
sequence of length below 2 it returns the empty sequence. -/
theorem calculateDerivative_matches_spec (pts : List Point)
    (hmono : StrictIncX pts) :
    (2 ≤ pts.length →
      (calculateDerivative pts).length = pts.length ∧
      (∀ i < pts.length,
        (nthP (calculateDerivative pts) i).x = (nthP pts i).x) ∧
      (nthP (calculateDerivative pts) 0).y =
        ((nthP pts 1).y - (nthP pts 0).y) /
          ((nthP pts 1).x - (nthP pts 0).x) ∧
      (nthP (calculateDerivative pts) (pts.length - 1)).y =
        ((nthP pts (pts.length - 1)).y - (nthP pts (pts.length - 2)).y) /
          ((nthP pts (pts.length - 1)).x - (nthP pts (pts.length - 2)).x) ∧
      (∀ i, 0 < i → i < pts.length - 1 →
        (nthP (calculateDerivative pts) i).y =
          ((nthP pts (i + 1)).y - (nthP pts (i - 1)).y) /
            ((nthP pts (i + 1)).x - (nthP pts (i - 1)).x))) ∧
    (pts.length < 2 → calculateDerivative pts = []) := by
  refine ⟨fun h2 => ⟨calculateDerivative_length pts h2, ?_, ?_, ?_, ?_⟩,
    fun h => calculateDerivative_of_lt pts h⟩
  · intro i hi
    rw [calculateDerivative_nthP pts h2 i hi]
  · rw [calculateDerivative_nthP pts h2 0 (by omega)]
    simp [derivSlope]
  · rw [calculateDerivative_nthP pts h2 (pts.length - 1) (by omega)]
    have h0 : pts.length - 1 ≠ 0 := by omega
    simp [derivSlope, h0, Nat.sub_sub]
  · intro i h0 hlt
    rw [calculateDerivative_nthP pts h2 i (by omega)]
    have h1 : i ≠ 0 := by omega
    have h2' : i ≠ pts.length - 1 := by omega
    simp [derivSlope, h1, h2']

/-- Witness for C1 on the spec's concrete scenario `[(0,0),(1,1),(2,4)]`. -/
theorem calculateDerivative_matches_spec_witness :
    StrictIncX [⟨0, 0⟩, ⟨1, 1⟩, ⟨2, 4⟩] ∧
    (2 ≤ ([⟨0, 0⟩, ⟨1, 1⟩, ⟨2, 4⟩] : List Point).length →
      (calculateDerivative [⟨0, 0⟩, ⟨1, 1⟩, ⟨2, 4⟩]).length =
        ([⟨0, 0⟩, ⟨1, 1⟩, ⟨2, 4⟩] : List Point).length ∧
      (∀ i < ([⟨0, 0⟩, ⟨1, 1⟩, ⟨2, 4⟩] : List Point).length,
        (nthP (calculateDerivative [⟨0, 0⟩, ⟨1, 1⟩, ⟨2, 4⟩]) i).x =
          (nthP [⟨0, 0⟩, ⟨1, 1⟩, ⟨2, 4⟩] i).x) ∧
      (nthP (calculateDerivative [⟨0, 0⟩, ⟨1, 1⟩, ⟨2, 4⟩]) 0).y =
        ((nthP [⟨0, 0⟩, ⟨1, 1⟩, ⟨2, 4⟩] 1).y -
            (nthP [⟨0, 0⟩, ⟨1, 1⟩, ⟨2, 4⟩] 0).y) /
          ((nthP [⟨0, 0⟩, ⟨1, 1⟩, ⟨2, 4⟩] 1).x -
            (nthP [⟨0, 0⟩, ⟨1, 1⟩, ⟨2, 4⟩] 0).x) ∧
      (nthP (calculateDerivative [⟨0, 0⟩, ⟨1, 1⟩, ⟨2, 4⟩])
          (([⟨0, 0⟩, ⟨1, 1⟩, ⟨2, 4⟩] : List Point).length - 1)).y =
        ((nthP [⟨0, 0⟩, ⟨1, 1⟩, ⟨2, 4⟩]
              (([⟨0, 0⟩, ⟨1, 1⟩, ⟨2, 4⟩] : List Point).length - 1)).y -
            (nthP [⟨0, 0⟩, ⟨1, 1⟩, ⟨2, 4⟩]
              (([⟨0, 0⟩, ⟨1, 1⟩, ⟨2, 4⟩] : List Point).length - 2)).y) /
          ((nthP [⟨0, 0⟩, ⟨1, 1⟩, ⟨2, 4⟩]
              (([⟨0, 0⟩, ⟨1, 1⟩, ⟨2, 4⟩] : List Point).length - 1)).x -
            (nthP [⟨0, 0⟩, ⟨1, 1⟩, ⟨2, 4⟩]
              (([⟨0, 0⟩, ⟨1, 1⟩, ⟨2, 4⟩] : List Point).length - 2)).x) ∧
      (∀ i, 0 < i → i < ([⟨0, 0⟩, ⟨1, 1⟩, ⟨2, 4⟩] : List Point).length - 1 →
        (nthP (calculateDerivative [⟨0, 0⟩, ⟨1, 1⟩, ⟨2, 4⟩]) i).y =
          ((nthP [⟨0, 0⟩, ⟨1, 1⟩, ⟨2, 4⟩] (i + 1)).y -
              (nthP [⟨0, 0⟩, ⟨1, 1⟩, ⟨2, 4⟩] (i - 1)).y) /
            ((nthP [⟨0, 0⟩, ⟨1, 1⟩, ⟨2, 4⟩] (i + 1)).x -
              (nthP [⟨0, 0⟩, ⟨1, 1⟩, ⟨2, 4⟩] (i - 1)).x))) ∧
    (([⟨0, 0⟩, ⟨1, 1⟩, ⟨2, 4⟩] : List Point).length < 2 →
      calculateDerivative [⟨0, 0⟩, ⟨1, 1⟩, ⟨2, 4⟩] = []) :=
  ⟨by norm_num [StrictIncX, List.chain'_cons],
    calculateDerivative_matches_spec [⟨0, 0⟩, ⟨1, 1⟩, ⟨2, 4⟩]
      (by norm_num [StrictIncX, List.chain'_cons])⟩

/-- C2: for every point sequence of length at least 1 and constant `C`,
`calculateIntegral` returns a sequence of the same length and x-values whose
first y equals `C` and whose later ys each add the trapezoid area of the
enclosing input samples to the previous output y; on the empty input it
returns the empty sequence. -/
theorem calculateIntegral_matches_spec (pts : List Point) (C : ℚ) :
    (1 ≤ pts.length →
      (calculateIntegral pts C).length = pts.length ∧
      (∀ i < pts.length,
        (nthP (calculateIntegral pts C) i).x = (nthP pts i).x) ∧
      (nthP (calculateIntegral pts C) 0).y = C ∧
      (∀ i, 1 ≤ i → i < pts.length →
        (nthP (calculateIntegral pts C) i).y =
          (nthP (calculateIntegral pts C) (i - 1)).y +
            ((nthP pts i).y + (nthP pts (i - 1)).y) / 2 *
              ((nthP pts i).x - (nthP pts (i - 1)).x))) ∧
    calculateIntegral [] C = [] := by
  refine ⟨fun h1 => ?_, rfl⟩
  cases pts with
  | nil => simp at h1
  | cons p rest =>
    refine ⟨calculateIntegral_length _ C, ?_, rfl, ?_⟩
    · intro i hi
      cases i with
      | zero => rfl
      | succ j =>
        rw [calculateIntegral_cons, nthP_cons_succ, nthP_cons_succ]
        exact integralLoop_nthP_x rest p C j (by simpa using hi)
    · intro i h1i hi
      obtain ⟨j, rfl⟩ : ∃ j, i = j + 1 := ⟨i - 1, by omega⟩
      cases j with
      | zero =>
        obtain ⟨r, rest', rfl⟩ : ∃ r rest', rest = r :: rest' := by
          cases rest with
          | nil => simp at hi
          | cons r rest' => exact ⟨r, rest', rfl⟩
        simp [calculateIntegral_cons, integralLoop, nthP_cons_succ,
          nthP_cons_zero]
      | succ k =>
        have hk : k + 1 < rest.length := by simpa using hi
        have hrec := integralLoop_rec rest p C (k + 1) (by omega) hk
        simp only [calculateIntegral_cons, nthP_cons_succ,
          Nat.add_sub_cancel] at hrec ⊢
        simpa using hrec

/-- Witness for C2 on the spec's concrete scenario `[(0,1),(1,1)]`, `C = 0`. -/
theorem calculateIntegral_matches_spec_witness :
    (1 ≤ ([⟨0, 1⟩, ⟨1, 1⟩] : List Point).length) ∧
    ((calculateIntegral [⟨0, 1⟩, ⟨1, 1⟩] 0).length =
        ([⟨0, 1⟩, ⟨1, 1⟩] : List Point).length ∧
      (∀ i < ([⟨0, 1⟩, ⟨1, 1⟩] : List Point).length,
        (nthP (calculateIntegral [⟨0, 1⟩, ⟨1, 1⟩] 0) i).x =
          (nthP [⟨0, 1⟩, ⟨1, 1⟩] i).x) ∧
      (nthP (calculateIntegral [⟨0, 1⟩, ⟨1, 1⟩] 0) 0).y = 0 ∧
      (∀ i, 1 ≤ i → i < ([⟨0, 1⟩, ⟨1, 1⟩] : List Point).length →
        (nthP (calculateIntegral [⟨0, 1⟩, ⟨1, 1⟩] 0) i).y =
          (nthP (calculateIntegral [⟨0, 1⟩, ⟨1, 1⟩] 0) (i - 1)).y +
            ((nthP [⟨0, 1⟩, ⟨1, 1⟩] i).y +
                (nthP [⟨0, 1⟩, ⟨1, 1⟩] (i - 1)).y) / 2 *
              ((nthP [⟨0, 1⟩, ⟨1, 1⟩] i).x -
                (nthP [⟨0, 1⟩, ⟨1, 1⟩] (i - 1)).x))) :=
  ⟨by norm_num, (calculateIntegral_matches_spec [⟨0, 1⟩, ⟨1, 1⟩] 0).1
    (by norm_num)⟩

/-- C9: integration is additive in the constant of integration: the output
for constant `C` has the same length and x-values as the output for constant
`0`, and each y-value is shifted by exactly `C`. -/
theorem calculateIntegral_constant_additive (pts : List Point) (C : ℚ)
    (i : Nat) (hi : i < (calculateIntegral pts C).length) :
    (nthP (calculateIntegral pts C) i).y =
      (nthP (calculateIntegral pts 0) i).y + C ∧
    (calculateIntegral pts C).map Point.x =
      (calculateIntegral pts 0).map Point.x ∧
    (calculateIntegral pts C).length = (calculateIntegral pts 0).length := by
  have hshift := calculateIntegral_shift pts C
  have hlen : i < (calculateIntegral pts 0).length := by
    rw [hshift] at hi; simpa using hi
  refine ⟨?_, ?_, ?_⟩
  · rw [hshift, nthP_map_point _ _ _ hlen]
  · rw [hshift, List.map_map]
    rfl
  · rw [hshift, List.length_map]

/-- Witness for C9 at `[(0,1),(1,3)]`, `C = 2`, `i = 1`. -/
theorem calculateIntegral_constant_additive_witness :
    1 < (calculateIntegral [⟨0, 1⟩, ⟨1, 3⟩] 2).length ∧
    ((nthP (calculateIntegral [⟨0, 1⟩, ⟨1, 3⟩] 2) 1).y =
      (nthP (calculateIntegral [⟨0, 1⟩, ⟨1, 3⟩] 0) 1).y + 2 ∧
    (calculateIntegral [⟨0, 1⟩, ⟨1, 3⟩] 2).map Point.x =
      (calculateIntegral [⟨0, 1⟩, ⟨1, 3⟩] 0).map Point.x ∧
    (calculateIntegral [⟨0, 1⟩, ⟨1, 3⟩] 2).length =
      (calculateIntegral [⟨0, 1⟩, ⟨1, 3⟩] 0).length) :=
  ⟨by norm_num [calculateIntegral, integralLoop],
    calculateIntegral_constant_additive [⟨0, 1⟩, ⟨1, 3⟩] 2 1
      (by norm_num [calculateIntegral, integralLoop])⟩

/-- C5 counterexample: on the strictly-increasing one-point sequence
`[(0,0)]`, `calculateDerivative` returns the empty sequence, whose x-values
are not "exactly the input's x-values". -/
theorem calculateDerivative_singleton_drops_x :
    StrictIncX [⟨0, 0⟩] ∧
    (calculateDerivative [⟨0, 0⟩]).map Point.x ≠
      ([⟨0, 0⟩] : List Point).map Point.x := by
  constructor
  · simp [StrictIncX]
  · norm_num [calculateDerivative]

/-- C5 as amended: for strictly-increasing input, `calculateDerivative`
preserves the x-values exactly when the length is at least 2 (and returns the
empty sequence below that), `calculateIntegral` always preserves the
x-values, an in-range single-point y-edit preserves the x-values, and all
three outputs again satisfy the strictly-increasing-x invariant. -/
theorem core_preserves_strictIncX (pts : List Point) (C : ℚ) (i : Nat)
    (newY : ℚ) (hmono : StrictIncX pts) (hi : i < pts.length) :
    (2 ≤ pts.length →
      (calculateDerivative pts).map Point.x = pts.map Point.x) ∧
    (pts.length < 2 → calculateDerivative pts = []) ∧
    (calculateIntegral pts C).map Point.x = pts.map Point.x ∧
    (setPointY pts i newY).map Point.x = pts.map Point.x ∧
    StrictIncX (calculateDerivative pts) ∧
    StrictIncX (calculateIntegral pts C) ∧
    StrictIncX (setPointY pts i newY) := by
  refine ⟨fun h2 => calculateDerivative_map_x pts h2,
    fun h => calculateDerivative_of_lt pts h,
    calculateIntegral_map_x pts C,
    setPointY_map_x pts i newY hi, ?_, ?_, ?_⟩
  · by_cases h2 : 2 ≤ pts.length
    · exact strictIncX_of_map_x_eq _ _ (calculateDerivative_map_x pts h2) hmono
    · rw [calculateDerivative_of_lt pts (by omega)]
      simp [StrictIncX]
  · exact strictIncX_of_map_x_eq _ _ (calculateIntegral_map_x pts C) hmono
  · exact strictIncX_of_map_x_eq _ _ (setPointY_map_x pts i newY hi) hmono

/-- Witness for the amended C5 at `[(0,0),(1,1),(2,4)]`, `C = 1`, edit index
`1`, new y `7`. -/
theorem core_preserves_strictIncX_witness :
    StrictIncX [⟨0, 0⟩, ⟨1, 1⟩, ⟨2, 4⟩] ∧
    1 < ([⟨0, 0⟩, ⟨1, 1⟩, ⟨2, 4⟩] : List Point).length ∧
    ((2 ≤ ([⟨0, 0⟩, ⟨1, 1⟩, ⟨2, 4⟩] : List Point).length →
      (calculateDerivative [⟨0, 0⟩, ⟨1, 1⟩, ⟨2, 4⟩]).map Point.x =
        ([⟨0, 0⟩, ⟨1, 1⟩, ⟨2, 4⟩] : List Point).map Point.x) ∧
    (([⟨0, 0⟩, ⟨1, 1⟩, ⟨2, 4⟩] : List Point).length < 2 →
      calculateDerivative [⟨0, 0⟩, ⟨1, 1⟩, ⟨2, 4⟩] = []) ∧
    (calculateIntegral [⟨0, 0⟩, ⟨1, 1⟩, ⟨2, 4⟩] 1).map Point.x =
      ([⟨0, 0⟩, ⟨1, 1⟩, ⟨2, 4⟩] : List Point).map Point.x ∧
    (setPointY [⟨0, 0⟩, ⟨1, 1⟩, ⟨2, 4⟩] 1 7).map Point.x =
      ([⟨0, 0⟩, ⟨1, 1⟩, ⟨2, 4⟩] : List Point).map Point.x ∧
    StrictIncX (calculateDerivative [⟨0, 0⟩, ⟨1, 1⟩, ⟨2, 4⟩]) ∧
    StrictIncX (calculateIntegral [⟨0, 0⟩, ⟨1, 1⟩, ⟨2, 4⟩] 1) ∧
    StrictIncX (setPointY [⟨0, 0⟩, ⟨1, 1⟩, ⟨2, 4⟩] 1 7)) :=
  ⟨by norm_num [StrictIncX, List.chain'_cons], by norm_num,
    core_preserves_strictIncX [⟨0, 0⟩, ⟨1, 1⟩, ⟨2, 4⟩] 1 1 7
      (by norm_num [StrictIncX, List.chain'_cons]) (by norm_num)⟩

/-- C8: `generateFunctionPoints` produces exactly `count` uniformly spaced
samples, the i-th being `(x_i, func x_i)` with
`x_i = minX + i * (maxX - minX) / (count - 1)`. -/
theorem generateFunctionPoints_matches_spec (func : ℚ → ℚ)
    (minX maxX : ℚ) (count : Nat) (hc : 0 < count) :
    (generateFunctionPoints func minX maxX count).length = count ∧
    ∀ i < count,
      nthP (generateFunctionPoints func minX maxX count) i =
        ⟨minX + (i : ℚ) * (maxX - minX) / ((count : ℚ) - 1),
          func (minX + (i : ℚ) * (maxX - minX) / ((count : ℚ) - 1))⟩ := by
  refine ⟨by simp [generateFunctionPoints], ?_⟩
  intro i hi
  simp only [generateFunctionPoints]
  rw [nthP_rangeMap _ _ _ hi, mul_div_assoc]

/-- Witness for C8 with `func x = x + 1` over `[0, 2]` and 3 samples. -/
theorem generateFunctionPoints_matches_spec_witness :
    0 < 3 ∧
    ((generateFunctionPoints (fun x => x + 1) 0 2 3).length = 3 ∧
    ∀ i < 3,
      nthP (generateFunctionPoints (fun x => x + 1) 0 2 3) i =
        ⟨0 + (i : ℚ) * (2 - 0) / ((3 : ℚ) - 1),
          (fun x => x + 1) (0 + (i : ℚ) * (2 - 0) / ((3 : ℚ) - 1))⟩) :=
  ⟨by norm_num,
    generateFunctionPoints_matches_spec (fun x => x + 1) 0 2 3 (by norm_num)⟩

/-- C7: an in-range PRIMARY edit keeps the length, leaves every other point
unchanged, and replaces only the y of the indexed point, keeping its x. -/
theorem handleFunctionDrag_frame (prev : List Point) (i : Nat) (newY : ℚ)
    (hi : i < prev.length) :
    (handleFunctionDrag prev i newY).length = prev.length ∧
    (∀ j < prev.length, j ≠ i →
      nthJ (handleFunctionDrag prev i newY) j = JsElem.point (nthP prev j)) ∧
    nthJ (handleFunctionDrag prev i newY) i =
      JsElem.point ⟨(nthP prev i).x, newY⟩ := by
  have hb : handleFunctionDrag prev i newY =
      (prev.set i ⟨(nthP prev i).x, newY⟩).map JsElem.point := by
    rw [handleFunctionDrag, jsSetY, if_pos hi]
  refine ⟨by simp [hb], ?_, ?_⟩
  · intro j hj hne
    rw [hb, nthJ_map_point _ _ (by simpa using hj),
      nthP_set _ _ _ _ hj, if_neg (fun h => hne h.symm)]
  · rw [hb, nthJ_map_point _ _ (by simpa using hi),
      nthP_set _ _ _ _ hi, if_pos rfl]

/-- Witness for C7 at `[(0,0),(1,1)]`, index 1, new y 9. -/
theorem handleFunctionDrag_frame_witness :
    1 < ([⟨0, 0⟩, ⟨1, 1⟩] : List Point).length ∧
    ((handleFunctionDrag [⟨0, 0⟩, ⟨1, 1⟩] 1 9).length =
        ([⟨0, 0⟩, ⟨1, 1⟩] : List Point).length ∧
    (∀ j < ([⟨0, 0⟩, ⟨1, 1⟩] : List Point).length, j ≠ 1 →
      nthJ (handleFunctionDrag [⟨0, 0⟩, ⟨1, 1⟩] 1 9) j =
        JsElem.point (nthP [⟨0, 0⟩, ⟨1, 1⟩] j)) ∧
    nthJ (handleFunctionDrag [⟨0, 0⟩, ⟨1, 1⟩] 1 9) 1 =
      JsElem.point ⟨(nthP [⟨0, 0⟩, ⟨1, 1⟩] 1).x, 9⟩) :=
  ⟨by norm_num, handleFunctionDrag_frame [⟨0, 0⟩, ⟨1, 1⟩] 1 9 (by norm_num)⟩

/-- C6 counterexample: at the out-of-range index 2 on the one-point PRIMARY
`[(0,0)]`, `handleFunctionDrag` signals no error: it silently returns the
modified sequence `[point (0,0), hole, {y: 5}]`, extending the array past its
end instead of failing fast. -/
theorem handleFunctionDrag_out_of_range_silent :
    handleFunctionDrag [⟨0, 0⟩] 2 5 =
      [JsElem.point ⟨0, 0⟩, JsElem.hole, JsElem.yOnly 5] ∧
    handleFunctionDrag [⟨0, 0⟩] 2 5 ≠
      ([⟨0, 0⟩] : List Point).map JsElem.point := by
  constructor
  · norm_num [handleFunctionDrag, jsSetY, List.replicate]
  · simp [handleFunctionDrag, jsSetY, List.replicate]

/-- C6 as amended: the PRIMARY edit handler performs no index validation and
has no error path: an index past the end silently yields a modified sequence
of length `index + 1` — the original points followed by holes and an x-less
point carrying the new y. -/
theorem handleFunctionDrag_out_of_range_extends (prev : List Point)
    (i : Nat) (newY : ℚ) (h : prev.length ≤ i) :
    handleFunctionDrag prev i newY =
      prev.map JsElem.point ++
        List.replicate (i - prev.length) JsElem.hole ++
        [JsElem.yOnly newY] ∧
    (handleFunctionDrag prev i newY).length = i + 1 := by
  have hb : handleFunctionDrag prev i newY =
      prev.map JsElem.point ++
        List.replicate (i - prev.length) JsElem.hole ++
        [JsElem.yOnly newY] := by
    rw [handleFunctionDrag, jsSetY, if_neg (by omega)]
  refine ⟨hb, ?_⟩
  rw [hb]
  simp only [List.length_append, List.length_map, List.length_replicate,
    List.length_singleton]
  omega

/-- Witness for the amended C6 at `[(0,0)]`, index 2, new y 5. -/
theorem handleFunctionDrag_out_of_range_extends_witness :
    ([⟨0, 0⟩] : List Point).length ≤ 2 ∧
    (handleFunctionDrag [⟨0, 0⟩] 2 5 =
      ([⟨0, 0⟩] : List Point).map JsElem.point ++
        List.replicate (2 - ([⟨0, 0⟩] : List Point).length) JsElem.hole ++
        [JsElem.yOnly 5] ∧
    (handleFunctionDrag [⟨0, 0⟩] 2 5).length = 2 + 1) :=
  ⟨by norm_num,
    handleFunctionDrag_out_of_range_extends [⟨0, 0⟩] 2 5 (by norm_num)⟩

/-- C3: editing the derivative at an in-range index and reconstructing
PRIMARY by integration anchored at the current first PRIMARY y leaves the
first PRIMARY y unchanged. -/
theorem handleDerivativeDrag_preserves_anchor (fp : List Point) (i : Nat)
    (newY : ℚ) (hfp : fp ≠ [])
    (hi : i < (calculateDerivative fp).length) :
    (nthP (handleDerivativeDrag fp (calculateDerivative fp) i newY) 0).y =
      (nthP fp 0).y := by
  obtain ⟨p, fpr, rfl⟩ : ∃ p rest, fp = p :: rest := by
    cases fp with
    | nil => exact absurd rfl hfp
    | cons p r => exact ⟨p, r, rfl⟩
  rw [handleDerivativeDrag]
  cases hset : setPointY (calculateDerivative (p :: fpr)) i newY with
  | nil =>
    exfalso
    have hlen := setPointY_length (calculateDerivative (p :: fpr)) i newY
    rw [hset] at hlen
    simp at hlen
    omega
  | cons m mr =>
    rw [calculateIntegral_cons, nthP_cons_zero, nthP_cons_zero]
    by_cases h0 : p.y = 0 <;> simp [jsOrHeadY, h0]

/-- Witness for C3 on the spec's concrete scenario: 3-point PRIMARY, edit
derivative index 1 to 5. -/
theorem handleDerivativeDrag_preserves_anchor_witness :
    ([⟨0, 0⟩, ⟨1, 1⟩, ⟨2, 4⟩] : List Point) ≠ [] ∧
    1 < (calculateDerivative [⟨0, 0⟩, ⟨1, 1⟩, ⟨2, 4⟩]).length ∧
    (nthP (handleDerivativeDrag [⟨0, 0⟩, ⟨1, 1⟩, ⟨2, 4⟩]
        (calculateDerivative [⟨0, 0⟩, ⟨1, 1⟩, ⟨2, 4⟩]) 1 5) 0).y =
      (nthP [⟨0, 0⟩, ⟨1, 1⟩, ⟨2, 4⟩] 0).y :=
  ⟨by simp, by norm_num [calculateDerivative],
    handleDerivativeDrag_preserves_anchor [⟨0, 0⟩, ⟨1, 1⟩, ⟨2, 4⟩] 1 5
      (by simp) (by norm_num [calculateDerivative])⟩

/-- C10: with an empty PRIMARY, the derivative-edit reconstruction does not
fail: the anchor falls back to 0 and the new PRIMARY is the integral of the
modified derivative with constant 0. -/
theorem handleDerivativeDrag_empty_primary (dv : List Point) (i : Nat)
    (newY : ℚ) (hi : i < dv.length) :
    handleDerivativeDrag [] dv i newY =
      calculateIntegral (setPointY dv i newY) 0 := rfl

/-- Witness for C10 at derivative `[(0,1),(1,2)]`, index 0, new y 7. -/
theorem handleDerivativeDrag_empty_primary_witness :
    0 < ([⟨0, 1⟩, ⟨1, 2⟩] : List Point).length ∧
    handleDerivativeDrag [] [⟨0, 1⟩, ⟨1, 2⟩] 0 7 =
      calculateIntegral (setPointY [⟨0, 1⟩, ⟨1, 2⟩] 0 7) 0 :=
  ⟨by norm_num,
    handleDerivativeDrag_empty_primary [⟨0, 1⟩, ⟨1, 2⟩] 0 7 (by norm_num)⟩

/-- C4 counterexample: `[(1,1),(2,2)]` is sampled from `y = 1·x + 0` with
strictly increasing x, yet integrating its derivative with constant `b = 0`
yields `[(1,0),(2,1)] ≠ seq` — exactly, in rational arithmetic.  The code
anchors the reconstruction at `seq[0].y = a·x₀ + b`, not at `b`. -/
theorem integrate_differentiate_at_b_fails :
    StrictIncX [⟨1, 1⟩, ⟨2, 2⟩] ∧
    (∀ p ∈ ([⟨1, 1⟩, ⟨2, 2⟩] : List Point), p.y = 1 * p.x + 0) ∧
    calculateIntegral (calculateDerivative [⟨1, 1⟩, ⟨2, 2⟩]) 0 =
      [⟨1, 0⟩, ⟨2, 1⟩] ∧
    calculateIntegral (calculateDerivative [⟨1, 1⟩, ⟨2, 2⟩]) 0 ≠
      [⟨1, 1⟩, ⟨2, 2⟩] := by
  refine ⟨by norm_num [StrictIncX, List.chain'_cons], linear_on_pair, ?_, ?_⟩
  · norm_num [calculateDerivative, derivSlope, nthP, calculateIntegral,
      integralLoop, List.range_succ]
  · norm_num [calculateDerivative, derivSlope, nthP, calculateIntegral,
      integralLoop, List.range_succ]

/-- C4 as amended: on a sequence of length at least 2 with strictly
increasing x sampled from `y = a·x + b`, integrating the derivative with the
code's anchor `seq[0].y` reproduces the sequence exactly, and for every
sequence of length at least 2 that composition leaves the x-values
unchanged. -/
theorem linear_roundtrip_anchored (pts qs : List Point) (a b : ℚ)
    (hmono : StrictIncX pts) (h2 : 2 ≤ pts.length)
    (hlin : ∀ p ∈ pts, p.y = a * p.x + b) (hq : 2 ≤ qs.length) :
    calculateIntegral (calculateDerivative pts) ((nthP pts 0).y) = pts ∧
    (calculateIntegral (calculateDerivative qs) ((nthP qs 0).y)).map
        Point.x = qs.map Point.x := by
  constructor
  · obtain ⟨p, rest, rfl⟩ : ∃ p rest, pts = p :: rest := by
      cases pts with
      | nil => simp at h2
      | cons p r => exact ⟨p, r, rfl⟩
    rw [calculateDerivative_linear _ a b hmono h2 hlin, List.map_cons,
      nthP_cons_zero, calculateIntegral_cons]
    rw [integralLoop_const a _ _ _ rfl ?hys]
    case hys =>
      intro r hr
      rw [List.mem_map] at hr
      obtain ⟨s, _, rfl⟩ := hr
      rfl
    rw [List.map_map]
    have hhead : (⟨p.x, p.y⟩ : Point) = p := rfl
    rw [hhead]
    congr 1
    have hp : p.y = a * p.x + b := hlin p (by simp)
    have : ∀ q ∈ rest, ((fun q => (⟨q.x, p.y + a * (q.x - p.x)⟩ : Point)) ∘
        fun p => (⟨p.x, a⟩ : Point)) q = id q := by
      intro q hq'
      have hqy : q.y = a * q.x + b := hlin q (List.mem_cons_of_mem p hq')
      show (⟨q.x, p.y + a * (q.x - p.x)⟩ : Point) = q
      have hy : p.y + a * (q.x - p.x) = q.y := by rw [hp, hqy]; ring
      rw [hy]
    rw [List.map_congr_left this, List.map_id]
  · rw [calculateIntegral_map_x, calculateDerivative_map_x qs hq]

/-- Witness for the amended C4: `[(1,1),(2,2)]` with `a = 1`, `b = 0`, and
x-preservation on `[(0,0),(1,1),(2,4)]`. -/
theorem linear_roundtrip_anchored_witness :
    StrictIncX [⟨1, 1⟩, ⟨2, 2⟩] ∧
    2 ≤ ([⟨1, 1⟩, ⟨2, 2⟩] : List Point).length ∧
    (∀ p ∈ ([⟨1, 1⟩, ⟨2, 2⟩] : List Point), p.y = 1 * p.x + 0) ∧
    2 ≤ ([⟨0, 0⟩, ⟨1, 1⟩, ⟨2, 4⟩] : List Point).length ∧
    (calculateIntegral (calculateDerivative [⟨1, 1⟩, ⟨2, 2⟩])
        ((nthP [⟨1, 1⟩, ⟨2, 2⟩] 0).y) = [⟨1, 1⟩, ⟨2, 2⟩] ∧
      (calculateIntegral (calculateDerivative [⟨0, 0⟩, ⟨1, 1⟩, ⟨2, 4⟩])
          ((nthP [⟨0, 0⟩, ⟨1, 1⟩, ⟨2, 4⟩] 0).y)).map Point.x =
        ([⟨0, 0⟩, ⟨1, 1⟩, ⟨2, 4⟩] : List Point).map Point.x) :=
  ⟨by norm_num [StrictIncX, List.chain'_cons], by norm_num,
    linear_on_pair, by norm_num,
    linear_roundtrip_anchored [⟨1, 1⟩, ⟨2, 2⟩] [⟨0, 0⟩, ⟨1, 1⟩, ⟨2, 4⟩] 1 0
      (by norm_num [StrictIncX, List.chain'_cons]) (by norm_num)
      linear_on_pair (by norm_num)⟩
